import Mathlib

/-!
Verification development for a HexChat-to-WeeChat chat-log converter.

The source program (`convert_hexchat_to_weechat.py`) is embedded shallowly:
strings become `List Char`, fallible code becomes `Option`/`Except`, and the
CPython behaviours the program relies on (`str.split(' ', 2)`, `str.rstrip`,
`int(...)`, `re` patterns, `datetime.fromtimestamp` / `strptime` /
`timestamp`) are modelled explicitly. Integer timestamps are `Int`; calendar
conversion uses the standard civil-from-days algorithm, with the
`datetime` year range 1..9999 enforced exactly where CPython enforces it.
-/

/-- Python's ASCII whitespace set, as used by `str.strip()` / `str.split()` /
the `\s` regex class (restricted to ASCII, which is all the program feeds it). -/
def isPySpace (c : Char) : Bool :=
  c == ' ' || c == '\t' || c == '\n' || c == '\r' || c == '\x0b' || c == '\x0c'

/-- Python `line.rstrip('\n\r')`: drop trailing newline and carriage-return
characters. -/
def pyRstripNL (l : List Char) : List Char :=
  (l.reverse.dropWhile (fun c => c == '\n' || c == '\r')).reverse

/-- Python `str.strip()` (both ends, ASCII whitespace). -/
def pyStripBoth (l : List Char) : List Char :=
  ((l.dropWhile isPySpace).reverse.dropWhile isPySpace).reverse

/-- Digit run of a Python integer literal after the first digit: ASCII digits
with single underscores allowed between digits (PEP 515), accumulating the
value. -/
def pyDigitsUAux : Nat → List Char → Option Nat
  | acc, [] => some acc
  | acc, c :: rest =>
    if c.isDigit then pyDigitsUAux (acc * 10 + (c.toNat - 48)) rest
    else if c = '_' then
      match rest with
      | d :: rest2 =>
        if d.isDigit then pyDigitsUAux (acc * 10 + (d.toNat - 48)) rest2 else none
      | [] => none
    else none

/-- Unsigned part of Python `int(...)`: a nonempty ASCII digit sequence, with
single underscores between digits. -/
def pyNatNoSign : List Char → Option Nat
  | [] => none
  | c :: rest => if c.isDigit then pyDigitsUAux (c.toNat - 48) rest else none

/-- Python `int(s)` for base 10: strip whitespace on both ends, optional
single sign, then digits (underscores allowed between digits). Non-ASCII
digits are not modelled; the program never feeds them deliberately. -/
def pyInt (l : List Char) : Option Int :=
  match pyStripBoth l with
  | '+' :: rest => (pyNatNoSign rest).map (fun n => (n : Int))
  | '-' :: rest => (pyNatNoSign rest).map (fun n => -(n : Int))
  | s => (pyNatNoSign s).map (fun n => (n : Int))

/-- Python `line.split(' ', 2)`: split on the literal space character, at
most twice, keeping empty fields. -/
def pySplitSpace2 (l : List Char) : List (List Char) :=
  let f1 := l.takeWhile (fun c => c != ' ')
  let r1 := l.dropWhile (fun c => c != ' ')
  match r1 with
  | [] => [f1]
  | _ :: r2 =>
    let f2 := r2.takeWhile (fun c => c != ' ')
    let r3 := r2.dropWhile (fun c => c != ' ')
    match r3 with
    | [] => [f1, f2]
    | _ :: r4 => [f1, f2, r4]

/-- The mIRC colour-introducer control byte `\x03`. -/
def ctrlC : Char := '\x03'

/-- Consume one or two ASCII digits (`\d{1,2}`, greedy); `none` when the list
does not start with a digit. -/
def dropDigits12 : List Char → Option (List Char)
  | [] => none
  | c1 :: rest =>
    if c1.isDigit then
      match rest with
      | c2 :: r2 => if c2.isDigit then some r2 else some rest
      | [] => some []
    else none

/-- Remainder after the optional part of `\x03(\d{1,2}(,\d{1,2})?)?`: greedy
one-or-two digits, then an optional comma followed by one-or-two digits. -/
def afterColorIntro (l : List Char) : List Char :=
  match dropDigits12 l with
  | none => l
  | some r1 =>
    match r1 with
    | c :: r2 =>
      if c = ',' then
        match dropDigits12 r2 with
        | some r3 => r3
        | none => r1
      else r1
    | [] => r1

/-- One left-to-right pass of `re.sub(r'\x03(\d{1,2}(,\d{1,2})?)?', '', text)`,
written with explicit fuel so the kernel can evaluate it; `fuel ≥ length`
always holds at the call site. -/
def stripColorsGo : Nat → List Char → List Char
  | 0, _ => []
  | _, [] => []
  | fuel + 1, c :: rest =>
    if c = ctrlC then stripColorsGo fuel (afterColorIntro rest)
    else c :: stripColorsGo fuel rest

/-- Remove every mIRC colour-code occurrence (`\x03` with optional fg,bg
digit groups). -/
def stripColors (l : List Char) : List Char :=
  stripColorsGo l.length l

/-- The single-byte formatting toggles removed by the second substitution:
bold, reset, reverse, italic, underline, bell. -/
def isToggle (c : Char) : Bool :=
  c == '\x02' || c == '\x0f' || c == '\x16' || c == '\x1d' || c == '\x1f' || c == '\x07'

/-- Second substitution of `strip_mirc_colors`: delete each formatting-toggle
byte. -/
def stripToggles (l : List Char) : List Char :=
  l.filter (fun c => !isToggle c)

/-- `strip_mirc_colors`: colour codes removed first, then the single-byte
toggles, exactly as the two `re.sub` calls run. -/
def strip_mirc_colors (l : List Char) : List Char :=
  stripToggles (stripColors l)

/-! ### Calendar arithmetic (UTC), modelling `datetime` -/

/-- Civil date from a day count relative to 1970-01-01 (standard
civil-from-days algorithm); gives (year, month, day). -/
def civilFromDays (z0 : Int) : Int × Nat × Nat :=
  let z := z0 + 719468
  let era := z.ediv 146097
  let doe := (z - era * 146097).toNat
  let yoe := (doe - doe / 1460 + doe / 36524 - doe / 146096) / 365
  let y := (yoe : Int) + era * 400
  let doy := doe - (365 * yoe + yoe / 4 - yoe / 100)
  let mp := (5 * doy + 2) / 153
  let d := doy - (153 * mp + 2) / 5 + 1
  let m := if mp < 10 then mp + 3 else mp - 9
  (if m ≤ 2 then y + 1 else y, m, d)

/-- Split a Unix timestamp into (year, month, day, hour, minute, second),
interpreting it as UTC. -/
def civilFromSecs (ts : Int) : Int × Nat × Nat × Nat × Nat × Nat :=
  let days := ts.ediv 86400
  let secs := (ts.emod 86400).toNat
  let ymd := civilFromDays days
  (ymd.1, ymd.2.1, ymd.2.2, secs / 3600, secs % 3600 / 60, secs % 60)

/-- Day count relative to 1970-01-01 of a civil date (standard days-from-civil
algorithm). -/
def daysFromCivil (y : Int) (m d : Nat) : Int :=
  let y' := if m ≤ 2 then y - 1 else y
  let era := y'.ediv 400
  let yoe := (y' - era * 400).toNat
  let mp := if 2 < m then m - 3 else m + 9
  let doy := (153 * mp + 2) / 5 + d - 1
  let doe := yoe * 365 + yoe / 4 - yoe / 100 + doy
  era * 146097 + (doe : Int) - 719468

/-- Unix timestamp of a civil UTC date-time, as computed by
`datetime.replace(tzinfo=utc).timestamp()` (exact: the float is never
rounded in the representable year range). -/
def secsFromCivil (y : Int) (mo d hh mi ss : Nat) : Int :=
  daysFromCivil y mo d * 86400 + ((hh * 3600 + mi * 60 + ss : Nat) : Int)

/-- Whether `datetime.fromtimestamp(ts, tz=timezone.utc)` succeeds: the civil
year must lie in `datetime`'s range 1..9999, otherwise CPython raises. -/
def fromtimestampOk (ts : Int) : Bool :=
  decide (1 ≤ (civilFromSecs ts).1 ∧ (civilFromSecs ts).1 ≤ 9999)

/-- Zero-pad a number to `w` digits, as `strftime` does for `%Y`/`%m`/etc. -/
def padNum (w n : Nat) : List Char :=
  let s := Nat.toDigits 10 n
  List.replicate (w - s.length) '0' ++ s

/-- `dt.strftime('%Y-%m-%d %H:%M:%S')` for a UTC timestamp whose year is in
range. -/
def formatTs (ts : Int) : List Char :=
  let c := civilFromSecs ts
  padNum 4 c.1.toNat ++ '-' :: padNum 2 c.2.1 ++ '-' :: padNum 2 c.2.2.1
    ++ ' ' :: padNum 2 c.2.2.2.1 ++ ':' :: padNum 2 c.2.2.2.2.1 ++ ':' :: padNum 2 c.2.2.2.2.2

/-! ### Regex pieces shared by the classifier -/

/-- Python `(.*)$` (no DOTALL, no MULTILINE) applied to the rest of the
string: `.` excludes `'\n'` and `$` matches at the end or just before one
final newline. Returns the captured group. -/
def matchDotStarEnd (l : List Char) : Option (List Char) :=
  if l.contains '\n' then
    if l.getLast? == some '\n' && !(l.dropLast.contains '\n') then some l.dropLast
    else none
  else some l

/-- Python `(.+)$`: like `(.*)$` but the group must be nonempty. -/
def matchDotPlusEnd (l : List Char) : Option (List Char) :=
  match matchDotStarEnd l with
  | some p => if p.isEmpty then none else some p
  | none => none

/-- Rule `^<([^>]+)>\t(.*)$`: a nonempty run of non-`>` characters in angle
brackets, a tab, then the message. Backtracking is deterministic: `[^>]+`
can only stop at the first `>`. -/
def ruleNick (text : List Char) : Option (List Char × List Char) :=
  match text with
  | [] => none
  | c :: rest =>
    if c = '<' then
      let nick := rest.takeWhile (fun d => d != '>')
      let after := rest.dropWhile (fun d => d != '>')
      if nick = [] then none
      else
        match after with
        | c1 :: c2 :: payload =>
          if c1 = '>' ∧ c2 = '\t' then (matchDotStarEnd payload).map (fun p => (nick, p))
          else none
        | _ => none
    else none

/-- Rule `^marker\t(.+)$` for a literal marker (`-->`, `<--`, `---`, `*`,
`-*status-`). -/
def ruleLit (marker text : List Char) : Option (List Char) :=
  if text.take (marker.length + 1) = marker ++ ['\t'] then
    matchDotPlusEnd (text.drop (marker.length + 1))
  else none

/-- Rule `^-([^-]+)-\t(.+)$` (notice). `[^-]+` can only stop at the first
`-` after the opening dash. -/
def ruleNotice (text : List Char) : Option (List Char × List Char) :=
  match text with
  | [] => none
  | c :: rest =>
    if c = '-' then
      let nick := rest.takeWhile (fun d => d != '-')
      let after := rest.dropWhile (fun d => d != '-')
      if nick = [] then none
      else
        match after with
        | c1 :: c2 :: payload =>
          if c1 = '-' ∧ c2 = '\t' then (matchDotPlusEnd payload).map (fun p => (nick, p))
          else none
        | _ => none
    else none

/-- Rule `^>([^<]+)<\t(.+)$` (outgoing message). -/
def ruleOutgoing (text : List Char) : Option (List Char × List Char) :=
  match text with
  | [] => none
  | c :: rest =>
    if c = '>' then
      let nick := rest.takeWhile (fun d => d != '<')
      let after := rest.dropWhile (fun d => d != '<')
      if nick = [] then none
      else
        match after with
        | c1 :: c2 :: payload =>
          if c1 = '<' ∧ c2 = '\t' then (matchDotPlusEnd payload).map (fun p => (nick, p))
          else none
        | _ => none
    else none

/-- Match `\s*>>\t` at the start of `l` and return the remainder. Greedy
`\s*` is deterministic here: `>` is not whitespace, so only consuming the
whole whitespace run can be followed by `>>`. -/
def afterArrow (l : List Char) : Option (List Char) :=
  let r := l.dropWhile isPySpace
  if r.take 3 = ['>', '>', '\t'] then some (r.drop 3) else none

/-- Backtracking over the greedy `(\S+)` of `^\s*(\S+)\s*>>\t(.+)$`: try the
nick length `k` from the longest non-space run downward, as Python's engine
does, and require a nonempty payload. -/
def nickSearch (rest : List Char) : Nat → Option (List Char × List Char)
  | 0 => none
  | k + 1 =>
    match afterArrow (rest.drop (k + 1)) with
    | some rem =>
      match matchDotPlusEnd rem with
      | some p => some (rest.take (k + 1), p)
      | none => nickSearch rest k
    | none => nickSearch rest k

/-- Rule `^\s*(\S+)\s*>>\t(.+)$` (private-message / query format). -/
def ruleQuery (text : List Char) : Option (List Char × List Char) :=
  let rest := text.dropWhile isPySpace
  nickSearch rest (rest.takeWhile (fun c => !isPySpace c)).length

/-- `classify_message`: try the regex rules in the source's exact order; the
two final fallbacks (`'\t' not in text` and the catch-all) both yield
`('--', text)`, mirrored verbatim. -/
def classify_message (text : List Char) : List Char × List Char :=
  match ruleNick text with
  | some (nick, msg) => ('<' :: (nick ++ ['>']), msg)
  | none =>
  match ruleLit ['-', '-', '>'] text with
  | some msg => (['-', '-', '>'], msg)
  | none =>
  match ruleLit ['<', '-', '-'] text with
  | some msg => (['<', '-', '-'], msg)
  | none =>
  match ruleLit ['-', '-', '-'] text with
  | some msg => (['-', '-'], msg)
  | none =>
  match ruleLit ['*'] text with
  | some msg => ([' ', '*'], msg)
  | none =>
  match ruleNotice text with
  | some (nick, msg) => (['-', '-'], '-' :: (nick ++ '-' :: ' ' :: msg))
  | none =>
  match ruleLit ['-', '*', 's', 't', 'a', 't', 'u', 's', '-'] text with
  | some msg => (['-', '-'], ['-', '*', 's', 't', 'a', 't', 'u', 's', '-', ' '] ++ msg)
  | none =>
  match ruleOutgoing text with
  | some (nick, msg) => (['-', '-'], '>' :: (nick ++ '<' :: ' ' :: msg))
  | none =>
  match ruleQuery text with
  | some (nick, msg) => ('<' :: (nick ++ ['>']), msg)
  | none =>
  if !(text.contains '\t') then (['-', '-'], text)
  else (['-', '-'], text)

/-! ### parse_hexchat_line -/

/-- The control bytes the hexchat parser allows below code 32 (mIRC
formatting plus tab, newline, carriage return). -/
def allowedControl : List Char :=
  ['\x03', '\x02', '\x0f', '\x16', '\x1d', '\x1f', '\x07', '\t', '\n', '\r']

/-- A character that makes a line "not classifiable": code below 32 and not
in the allow-list. -/
def badControl (c : Char) : Bool :=
  decide (c.toNat < 32) && !(allowedControl.contains c)

/-- Stage of `parse_hexchat_line` after field splitting: parse the integer
timestamp (`int(...)`, ValueError caught), strip colour codes, convert the
timestamp (`datetime.fromtimestamp` — raises, i.e. `.error`, when the year
falls outside 1..9999), format it, and classify. The Python
`if prefix is None` guard is dead (`classify_message` is total) and is
omitted. -/
def parseFields (tsField raw : List Char) :
    Except Unit (Option (Int × List Char × List Char × List Char)) :=
  match pyInt tsField with
  | none => .ok none
  | some ts =>
    let clean := strip_mirc_colors raw
    if fromtimestampOk ts then
      let dtStr := formatTs ts
      let pm := classify_message clean
      .ok (some (ts, dtStr, pm.1, pm.2))
    else .error ()

/-- `parse_hexchat_line`: rstrip `\n\r`, require the `T ` marker, reject
lines containing a disallowed control byte, split on the space character
(maxsplit 2), then hand over to `parseFields`. An `.error` result models an
uncaught Python exception. -/
def parse_hexchat_line (line0 : List Char) :
    Except Unit (Option (Int × List Char × List Char × List Char)) :=
  let line := pyRstripNL line0
  if line.take 2 = ['T', ' '] then
    if line.any badControl then .ok none
    else
      match pySplitSpace2 line with
      | [_, tsField, raw] => parseFields tsField raw
      | _ => .ok none
  else .ok none

/-! ### parse_weechat_line -/

/-- Numeric value of an ASCII digit character. -/
def dig (c : Char) : Nat := c.toNat - 48

/-- The leading-group regex `^(\d{4}-\d{2}-\d{2} \d{2}:\d{2}:\d{2})\t`:
exact digit counts and literal separators, then a tab. Returns
(year, month, day, hour, minute, second) as raw digit values. -/
def weeHeader (l : List Char) : Option (Nat × Nat × Nat × Nat × Nat × Nat) :=
  match l with
  | y1 :: y2 :: y3 :: y4 :: '-' :: m1 :: m2 :: '-' :: d1 :: d2 :: ' ' ::
      h1 :: h2 :: ':' :: n1 :: n2 :: ':' :: e1 :: e2 :: '\t' :: _ =>
    if y1.isDigit && y2.isDigit && y3.isDigit && y4.isDigit && m1.isDigit && m2.isDigit &&
        d1.isDigit && d2.isDigit && h1.isDigit && h2.isDigit && n1.isDigit && n2.isDigit &&
        e1.isDigit && e2.isDigit then
      some (dig y1 * 1000 + dig y2 * 100 + dig y3 * 10 + dig y4,
            dig m1 * 10 + dig m2, dig d1 * 10 + dig d2,
            dig h1 * 10 + dig h2, dig n1 * 10 + dig n2, dig e1 * 10 + dig e2)
    else none
  | _ => none

/-- Gregorian leap-year test. -/
def isLeapYear (y : Nat) : Bool :=
  y % 4 == 0 && (y % 100 != 0 || y % 400 == 0)

/-- Length of a month, as validated by `datetime`. -/
def daysInMonth (y m : Nat) : Nat :=
  if m = 2 then (if isLeapYear y then 29 else 28)
  else if m = 4 ∨ m = 6 ∨ m = 9 ∨ m = 11 then 30 else 31

/-- Validity checks performed by `datetime.strptime` and the `datetime`
constructor: year at least 1 (at most 9999 is automatic with four digits),
month 1..12, day within the month, hour ≤ 23, minute ≤ 59, second ≤ 59. -/
def validDateTime (y mo d hh mi ss : Nat) : Bool :=
  decide (1 ≤ y ∧ 1 ≤ mo ∧ mo ≤ 12 ∧ 1 ≤ d ∧ d ≤ daysInMonth y mo ∧
    hh ≤ 23 ∧ mi ≤ 59 ∧ ss ≤ 59)

/-- `parse_weechat_line`: rstrip `\n\r`, reject empty lines, require the
timestamp header and a valid calendar date-time, and on success carry the
naive-UTC timestamp together with the entire rstripped line. -/
def parse_weechat_line (line0 : List Char) : Option (Int × List Char) :=
  let line := pyRstripNL line0
  if line = [] then none
  else
    match weeHeader line with
    | some (y, mo, d, hh, mi, ss) =>
      if validDateTime y mo d hh mi ss then
        some (secsFromCivil (y : Int) mo d hh mi ss, line)
      else none
    | none => none

/-! ### process_file: convert, merge, sort, dedup, write -/

/-- An in-memory entry `(unix_ts, formatted_line)` exactly as the Python
code stores it. -/
abbrev Entry := Int × List Char

/-- The formatted line `f'{dt_str}\t{prefix}\t{message}'` paired with its
timestamp. -/
def formatEntry (ts : Int) (dtStr pfx msg : List Char) : Entry :=
  (ts, dtStr ++ '\t' :: pfx ++ '\t' :: msg)

/-- Conversion loop over the hexchat lines of one logical file (all input
subdirectories concatenated in reading order): parse each line, keep the
successful ones, propagate an uncaught exception. -/
def convertLines : List (List Char) → Except Unit (List Entry)
  | [] => .ok []
  | l :: rest =>
    match parse_hexchat_line l with
    | .error e => .error e
    | .ok none => convertLines rest
    | .ok (some (ts, dtStr, pfx, msg)) =>
      match convertLines rest with
      | .error e => .error e
      | .ok es => .ok (formatEntry ts dtStr pfx msg :: es)

/-- Timestamp order used by `entries.sort(key=lambda x: x[0])`. -/
def tsLe (a b : Entry) : Prop := a.1 ≤ b.1

instance : DecidableRel tsLe := fun a b => Int.decLe a.1 b.1

instance : IsTotal Entry tsLe := ⟨fun a b => Int.le_total a.1 b.1⟩

instance : IsTrans Entry tsLe := ⟨fun _ _ _ h1 h2 => le_trans h1 h2⟩

/-- Python `list.sort(key=lambda x: x[0])` is a stable sort by timestamp; a
stable sort's output is uniquely determined by the input, so it is embedded
as a stable insertion sort. -/
def sortEntries (l : List Entry) : List Entry :=
  List.insertionSort tsLe l

/-- The dedup loop: `prev` starts as `None` and is set to the current entry
on every iteration; an entry is emitted only when it differs from `prev`,
i.e. from the immediately preceding input entry (which, inductively, is the
last emitted entry). -/
def dedupAdjAux (prev : Option Entry) : List Entry → List Entry
  | [] => []
  | e :: rest =>
    if some e = prev then dedupAdjAux (some e) rest
    else e :: dedupAdjAux (some e) rest

/-- Deduplicate consecutive identical `(ts, line)` entries, as the Python
loop does. -/
def dedupAdj (l : List Entry) : List Entry :=
  dedupAdjAux none l

/-- `process_file` for one logical file. `hexLines` are the source-format
lines found across all input subdirectories (in reading order); `wee` is
the pre-existing destination file's lines, `none` when the file does not
exist. The result is `.error` for an uncaught exception, `.ok none` when
nothing is written (and the destination is never read), and `.ok (some ls)`
when the destination is overwritten with exactly the lines `ls` (each then
written with a trailing newline). -/
def process_file (hexLines : List (List Char)) (wee : Option (List (List Char))) :
    Except Unit (Option (List (List Char))) :=
  match convertLines hexLines with
  | .error e => .error e
  | .ok newEntries =>
    if newEntries.length = 0 then .ok none
    else
      let oldEntries := (wee.getD []).filterMap parse_weechat_line
      let deduped := dedupAdj (sortEntries (newEntries ++ oldEntries))
      .ok (some (deduped.map (fun e => e.2)))

/-- Serialization of one surviving entry: its stored line followed by a
newline (`f.write(line + '\n')`). -/
def serializeLine (e : Entry) : List Char :=
  e.2 ++ ['\n']

/-- Modelled from the spec: "at least three whitespace-separated fields" —
Python `str.split()` with no separator, i.e. fields are the maximal runs of
non-whitespace characters. The source code itself splits on the literal
space character instead; this definition exists only to compare the spec's
wording with the code. -/
def wsFieldsGo (cur : List Char) : List Char → List (List Char)
  | [] => if cur.isEmpty then [] else [cur.reverse]
  | c :: rest =>
    if isPySpace c then
      (if cur.isEmpty then wsFieldsGo [] rest else cur.reverse :: wsFieldsGo [] rest)
    else wsFieldsGo (c :: cur) rest

/-- Modelled from the spec: whitespace-separated fields of a line. -/
def wsFields (l : List Char) : List (List Char) :=
  wsFieldsGo [] l

/-- Loop of `dedupBySerializedLine`; `prev` tracks the line of the last
emitted record. -/
def dedupByLineAux : Option (List Char) → List Entry → List Entry
  | _, [] => []
  | prev, e :: rest =>
    if some e.2 = prev then dedupByLineAux prev rest
    else e :: dedupByLineAux (some e.2) rest

/-- Follows the spec's words for deduplication: append a record only if its
serialized line differs from the line of the immediately preceding output
record. -/
def dedupBySerializedLine (l : List Entry) : List Entry :=
  dedupByLineAux none l

deriving instance DecidableEq for Except

/-! ### Facts about colour stripping (claim C9) -/

theorem dropDigits12_length_le {l r : List Char} (h : dropDigits12 l = some r) :
    r.length ≤ l.length := by
  match l with
  | [] => simp [dropDigits12] at h
  | [c1] =>
    simp only [dropDigits12] at h
    split at h
    · simp only [Option.some.injEq] at h
      subst h
      simp
    · exact absurd h (by simp)
  | c1 :: c2 :: r2 =>
    simp only [dropDigits12] at h
    split at h
    · split at h
      · simp only [Option.some.injEq] at h
        subst h
        simp only [List.length_cons]
        omega
      · simp only [Option.some.injEq] at h
        subst h
        simp only [List.length_cons]
        omega
    · exact absurd h (by simp)

theorem afterColorIntro_length_le (l : List Char) :
    (afterColorIntro l).length ≤ l.length := by
  unfold afterColorIntro
  split
  · exact le_rfl
  case _ r1 heq =>
    have h1 := dropDigits12_length_le heq
    split
    case _ c r2 =>
      split
      case isTrue hc =>
        split
        case _ r3 h2 =>
          have h3 := dropDigits12_length_le h2
          simp only [List.length_cons] at h1
          omega
        case _ => exact h1
      case isFalse hc => exact h1
    case _ => exact h1

theorem stripColorsGo_not_mem (fuel : Nat) :
    ∀ l : List Char, l.length ≤ fuel → ctrlC ∉ stripColorsGo fuel l := by
  induction fuel with
  | zero => intro l _; simp [stripColorsGo]
  | succ n ih =>
    intro l h
    match l with
    | [] => simp [stripColorsGo]
    | c :: rest =>
      simp only [List.length_cons, Nat.succ_le_succ_iff] at h
      simp only [stripColorsGo]
      by_cases hc : c = ctrlC
      · rw [if_pos hc]
        exact ih _ (le_trans (afterColorIntro_length_le rest) h)
      · rw [if_neg hc]
        intro hmem
        rcases List.mem_cons.mp hmem with h1 | h2
        · exact hc h1.symm
        · exact ih rest h h2

theorem stripColorsGo_eq_self (fuel : Nat) :
    ∀ l : List Char, l.length ≤ fuel → ctrlC ∉ l → stripColorsGo fuel l = l := by
  induction fuel with
  | zero =>
    intro l h _
    rw [List.eq_nil_of_length_eq_zero (Nat.le_zero.mp h)]
    rfl
  | succ n ih =>
    intro l h hmem
    match l with
    | [] => rfl
    | c :: rest =>
      simp only [List.length_cons, Nat.succ_le_succ_iff] at h
      have hc : ¬(c = ctrlC) := fun e => hmem (by rw [e]; exact List.mem_cons_self _ _)
      simp only [stripColorsGo, if_neg hc]
      rw [ih rest h (fun hm => hmem (List.mem_cons_of_mem _ hm))]

theorem stripColors_not_mem (l : List Char) : ctrlC ∉ stripColors l :=
  stripColorsGo_not_mem l.length l le_rfl

theorem stripColors_eq_self {l : List Char} (h : ctrlC ∉ l) : stripColors l = l :=
  stripColorsGo_eq_self l.length l le_rfl h

theorem stripToggles_not_mem {l : List Char} (h : ctrlC ∉ l) : ctrlC ∉ stripToggles l :=
  fun hm => h (List.mem_of_mem_filter hm)

theorem stripToggles_idem (l : List Char) :
    stripToggles (stripToggles l) = stripToggles l := by
  simp [stripToggles, List.filter_filter]

/-- C9: `strip_mirc_colors` is idempotent — stripping a second time changes
nothing, because the first pass leaves no colour-introducer byte and the
toggle filter is itself idempotent. -/
theorem strip_mirc_colors_idempotent (l : List Char) :
    strip_mirc_colors (strip_mirc_colors l) = strip_mirc_colors l := by
  unfold strip_mirc_colors
  rw [stripColors_eq_self (stripToggles_not_mem (stripColors_not_mem l)), stripToggles_idem]

/-! ### Claims C1, C2, C3 -/

/-- C1: the claim says `parse_hexchat_line` never raises, in particular on
`T <n> <rest>` with an arbitrarily large integer `<n>`; in fact the code
passes the parsed integer to `datetime.fromtimestamp`, which raises for a
year outside 1..9999 — here timestamp 10^12 (year 33658), so the call
raises instead of returning a record or `None`. -/
theorem parse_hexchat_overflow_raises :
    parse_hexchat_line ("T 1000000000000 x".toList) = .error () := by decide

/-- C2: if zero hexchat records are recovered for a logical file, the
destination is neither read nor written: `process_file` returns the no-op
outcome for every possible destination-file state `wee`. -/
theorem zero_records_no_write (hexLines : List (List Char)) (wee : Option (List (List Char)))
    (h : convertLines hexLines = .ok []) :
    process_file hexLines wee = .ok none := by
  unfold process_file
  rw [h]
  rfl

theorem zero_records_no_write_witness :
    process_file ["garbage".toList] (some ["2023-01-01 00:00:00\tkeep".toList]) = .ok none :=
  zero_records_no_write _ _ (by decide)

/-- C3 counterexample: converting `T 1700000000 <alice>\tHello\x03(4world`
with no pre-existing destination does not produce the claimed line
`2023-11-14 22:13:20\t<alice>\tHelloworld`: the colour regex consumes only
the bare `\x03` (no digits follow it), so `(4` survives. -/
theorem convert_single_line_counterexample :
    process_file ["T 1700000000 <alice>\tHello\x03(4world".toList] none ≠
      .ok (some ["2023-11-14 22:13:20\t<alice>\tHelloworld".toList]) := by decide

/-- C3 amended: the same conversion produces exactly one destination line,
`2023-11-14 22:13:20\t<alice>\tHello(4world` — the `\x03` byte is removed
but the literal `(4` is kept. -/
theorem convert_single_line_amended :
    process_file ["T 1700000000 <alice>\tHello\x03(4world".toList] none =
      .ok (some ["2023-11-14 22:13:20\t<alice>\tHello(4world".toList]) := by decide

/-! ### Claim C5: stable merge sort -/

theorem filter_orderedInsert (t : Int) (a : Entry) (s : List Entry) :
    (List.orderedInsert tsLe a s).filter (fun e => e.1 == t) =
      if a.1 == t then a :: s.filter (fun e => e.1 == t)
      else s.filter (fun e => e.1 == t) := by
  induction s with
  | nil => simp [List.filter_cons]
  | cons b s ih =>
    by_cases hab : tsLe a b
    · rw [List.orderedInsert, if_pos hab, List.filter_cons]
    · rw [List.orderedInsert, if_neg hab, List.filter_cons, ih, List.filter_cons]
      have hb : b.1 < a.1 := lt_of_not_le hab
      by_cases hat : a.1 = t
      · have h1 : (a.1 == t) = true := beq_iff_eq.mpr hat
        have h2 : (b.1 == t) = false := by
          rw [beq_eq_false_iff_ne]
          omega
        simp [h1, h2]
      · have h1 : (a.1 == t) = false := beq_eq_false_iff_ne.mpr hat
        simp [h1]

theorem filter_sortEntries (t : Int) (l : List Entry) :
    (sortEntries l).filter (fun e => e.1 == t) = l.filter (fun e => e.1 == t) := by
  induction l with
  | nil => rfl
  | cons a l ih =>
    rw [sortEntries, List.insertionSort, filter_orderedInsert, List.filter_cons]
    rw [show List.insertionSort tsLe l = sortEntries l from rfl, ih]

/-- C5: the merge stable-sorts the concatenation of newly converted entries
and pre-existing destination entries by integer timestamp ascending: the
result is a permutation, is sorted by `tsLe`, and for every timestamp value
the subsequence of entries carrying it keeps its input order (so a new entry
precedes an old entry with the same timestamp). -/
theorem merge_sort_stable (newEntries oldEntries : List Entry) :
    (sortEntries (newEntries ++ oldEntries)).Perm (newEntries ++ oldEntries) ∧
    List.Sorted tsLe (sortEntries (newEntries ++ oldEntries)) ∧
    ∀ t : Int, (sortEntries (newEntries ++ oldEntries)).filter (fun e => e.1 == t) =
      (newEntries ++ oldEntries).filter (fun e => e.1 == t) :=
  ⟨List.perm_insertionSort tsLe _, List.sorted_insertionSort tsLe _,
    fun t => filter_sortEntries t _⟩

/-! ### Claim C4: adjacency-only deduplication on serialized lines -/

theorem dedupAux_agree : ∀ (l : List Entry) (p : Option Entry),
    (∀ f, p = some f → ∀ e ∈ l, e.2 = f.2 → e.1 = f.1) →
    (∀ e ∈ l, ∀ f ∈ l, e.2 = f.2 → e.1 = f.1) →
    dedupAdjAux p l = dedupByLineAux (p.map (fun f => f.2)) l := by
  intro l
  induction l with
  | nil => intro p _ _; rfl
  | cons e rest ih =>
    intro p hp hl
    simp only [dedupAdjAux, dedupByLineAux]
    by_cases h1 : some e = p
    · have h2 : some e.2 = p.map (fun f => f.2) := by rw [← h1]; rfl
      rw [if_pos h1, if_pos h2]
      have he : dedupAdjAux (some e) rest = dedupAdjAux p rest := by rw [h1]
      rw [he]
      exact ih p (fun f hf e' he' => hp f hf e' (List.mem_cons_of_mem _ he'))
        (fun a ha b hb => hl a (List.mem_cons_of_mem _ ha) b (List.mem_cons_of_mem _ hb))
    · have h2 : ¬(some e.2 = p.map (fun f => f.2)) := by
        intro hh
        cases p with
        | none => exact Option.noConfusion hh
        | some f =>
          have hef : e.2 = f.2 := Option.some.inj hh
          have hts : e.1 = f.1 := hp f rfl e (List.mem_cons_self _ _) hef
          exact h1 (congrArg some (Prod.ext hts hef))
      rw [if_neg h1, if_neg h2]
      congr 1
      exact ih (some e)
        (fun f hf e' he' hee => by
          have hef : e = f := Option.some.inj hf
          subst hef
          exact hl e' (List.mem_cons_of_mem _ he') e (List.mem_cons_self _ _) hee)
        (fun a ha b hb => hl a (List.mem_cons_of_mem _ ha) b (List.mem_cons_of_mem _ hb))

/-- C4: under the pipeline invariant that an entry's timestamp is determined
by its serialized line, the dedup pass drops a record exactly when its full
serialized line equals the line of the immediately preceding output record
(`dedupBySerializedLine` is the spec's wording); and deduplication is
adjacency-only: a sorted sequence A, A, B, A with distinct lines A ≠ B
yields A, B, A. -/
theorem dedup_by_line_iff (l : List Entry)
    (hcoh : ∀ e ∈ l, ∀ f ∈ l, e.2 = f.2 → e.1 = f.1)
    (A B : Entry) (hAB : A.2 ≠ B.2) :
    dedupAdj l = dedupBySerializedLine l ∧
    dedupAdj [A, A, B, A] = [A, B, A] := by
  constructor
  · exact dedupAux_agree l none (fun f hf => Option.noConfusion hf) hcoh
  · have hne : ¬(A = B) := fun h => hAB (congrArg Prod.snd h)
    have hne' : ¬(B = A) := fun h => hne h.symm
    simp [dedupAdj, dedupAdjAux, hne, hne']

theorem dedup_by_line_iff_witness :
    dedupAdj [((5 : Int), ['a']), ((5 : Int), ['a']), ((5 : Int), ['b']), ((5 : Int), ['a'])] =
      dedupBySerializedLine
        [((5 : Int), ['a']), ((5 : Int), ['a']), ((5 : Int), ['b']), ((5 : Int), ['a'])] ∧
    dedupAdj [((5 : Int), ['a']), ((5 : Int), ['a']), ((5 : Int), ['b']), ((5 : Int), ['a'])] =
      [((5 : Int), ['a']), ((5 : Int), ['b']), ((5 : Int), ['a'])] :=
  dedup_by_line_iff _ (by decide) _ _ (by decide)

/-! ### Claim C6: disallowed control bytes reject the whole line -/

/-- C6: any line that (after rstrip of trailing newline characters) starts
with the `T ` marker and contains a character of code below 32 outside the
allow-list is classified as not classifiable, whatever the rest looks like. -/
theorem bad_control_not_classifiable (l : List Char)
    (hstart : (pyRstripNL l).take 2 = ['T', ' '])
    (hbad : ∃ c ∈ pyRstripNL l, c.toNat < 32 ∧ c ∉ allowedControl) :
    parse_hexchat_line l = .ok none := by
  have hany : (pyRstripNL l).any badControl = true := by
    rcases hbad with ⟨c, hc, hlt, hmem⟩
    refine List.any_eq_true.mpr ⟨c, hc, ?_⟩
    unfold badControl
    rw [Bool.and_eq_true, decide_eq_true_eq]
    refine ⟨hlt, ?_⟩
    rw [Bool.not_eq_true', ← Bool.not_eq_true]
    exact fun hcon => hmem (List.elem_iff.mp hcon)
  simp only [parse_hexchat_line]
  rw [if_pos hstart, if_pos hany]

theorem bad_control_not_classifiable_witness :
    parse_hexchat_line ("T 5 x\x01y".toList) = .ok none :=
  bad_control_not_classifiable _ (by decide) ⟨'\x01', by decide, by decide, by decide⟩

/-! ### Claim C7: the field split is on the space character only -/

/-- C7 counterexample: the line `T 1\tx` has three whitespace-separated
fields in the spec's sense, yet the code splits on the space character
only, obtains two fields, and rejects the line as not classifiable instead
of proceeding to timestamp parsing. -/
theorem split_step_counterexample :
    (wsFields ("T 1\tx".toList)).length = 3 ∧
    (pySplitSpace2 ("T 1\tx".toList)).length = 2 ∧
    parse_hexchat_line ("T 1\tx".toList) = .ok none := by decide

/-- C7 amended: for a line passing the marker and control checks, the line
is rejected at the field-splitting step iff splitting on the space
character (maxsplit 2) yields fewer than three fields; with three such
fields the parse proceeds to timestamp parsing on them. A tab between
timestamp and remainder is not a separator. -/
theorem split_step_space_only (l : List Char)
    (hstart : (pyRstripNL l).take 2 = ['T', ' '])
    (hctl : (pyRstripNL l).any badControl = false) :
    ((pySplitSpace2 (pyRstripNL l)).length < 3 → parse_hexchat_line l = .ok none) ∧
    (∀ a f1 f2, pySplitSpace2 (pyRstripNL l) = [a, f1, f2] →
      parse_hexchat_line l = parseFields f1 f2) := by
  have hc : ¬((pyRstripNL l).any badControl = true) := by rw [hctl]; exact Bool.false_ne_true
  constructor
  · intro hlen
    simp only [parse_hexchat_line]
    rw [if_pos hstart, if_neg hc]
    rcases hsp : pySplitSpace2 (pyRstripNL l) with _ | ⟨a, _ | ⟨b, _ | ⟨c, rest⟩⟩⟩
    · rfl
    · rfl
    · rfl
    · rw [hsp] at hlen
      rcases rest with _ | ⟨d, rest'⟩
      · simp at hlen
      · rfl
  · intro a f1 f2 hsp
    simp only [parse_hexchat_line]
    rw [if_pos hstart, if_neg hc, hsp]

theorem split_step_space_only_witness :
    parse_hexchat_line ("T 1 x".toList) = parseFields ['1'] ['x'] :=
  (split_step_space_only _ (by decide) (by decide)).2 ['T'] ['1'] ['x'] (by decide)

/-! ### Claim C8: destination-line round-trip -/

theorem pyRstripNL_append_newline (body : List Char)
    (h1 : body.getLast? ≠ some '\n') (h2 : body.getLast? ≠ some '\r') :
    pyRstripNL (body ++ ['\n']) = body := by
  unfold pyRstripNL
  rw [List.reverse_append]
  have hstep : (['\n'].reverse ++ body.reverse) = '\n' :: body.reverse := rfl
  rw [hstep, List.dropWhile_cons]
  have hnl : (('\n' == '\n') || ('\n' == '\r')) = true := rfl
  rw [hnl]
  simp only [if_true]
  cases hb : body.reverse with
  | nil =>
    have : body = [] := by
      have := congrArg List.reverse hb
      simpa using this
    simp [this]
  | cons c rest =>
    have hlast : body.getLast? = some c := by
      rw [← List.head?_reverse, hb]
      rfl
    have hc1 : ¬(c = '\n') := fun e => h1 (by rw [hlast, e])
    have hc2 : ¬(c = '\r') := fun e => h2 (by rw [hlast, e])
    rw [List.dropWhile_cons]
    have hcond : ((c == '\n') || (c == '\r')) = false := by
      rw [Bool.or_eq_false_iff]
      exact ⟨beq_eq_false_iff_ne.mpr hc1, beq_eq_false_iff_ne.mpr hc2⟩
    rw [hcond, if_neg Bool.false_ne_true]
    rw [← hb]
    exact List.reverse_reverse body

theorem parse_weechat_line_snd {l : List Char} {r : Int × List Char}
    (h : parse_weechat_line l = some r) : r.2 = pyRstripNL l := by
  simp only [parse_weechat_line] at h
  split at h
  · exact absurd h (by simp)
  · split at h
    · split at h
      · rw [← Option.some.inj h]
      · exact absurd h (by simp)
    · exact absurd h (by simp)

/-- C8 counterexample: the CRLF-terminated destination line
`2023-01-01 00:00:00\tx\r\n` is accepted by `parse_weechat_line`, but
re-serializing the stored record appends a bare `\n`, so the output is not
byte-identical to the line as read. -/
theorem weechat_roundtrip_counterexample :
    (parse_weechat_line ("2023-01-01 00:00:00\tx\r\n".toList)).isSome = true ∧
    (parse_weechat_line ("2023-01-01 00:00:00\tx\r\n".toList)).map serializeLine ≠
      some ("2023-01-01 00:00:00\tx\r\n".toList) := by decide

/-- C8 amended: for a destination line read with a single `\n` terminator
whose body does not itself end in `\n` or `\r`, parsing and re-serializing
the unmodified destination-origin record is byte-identical to the line as
read; in general the round-trip only normalizes the line terminator. -/
theorem weechat_roundtrip (body : List Char) (r : Int × List Char)
    (h1 : body.getLast? ≠ some '\n') (h2 : body.getLast? ≠ some '\r')
    (hp : parse_weechat_line (body ++ ['\n']) = some r) :
    serializeLine r = body ++ ['\n'] := by
  have hsnd := parse_weechat_line_snd hp
  rw [pyRstripNL_append_newline body h1 h2] at hsnd
  unfold serializeLine
  rw [hsnd]

theorem weechat_roundtrip_witness :
    serializeLine ((1672531200 : Int), "2023-01-01 00:00:00\tx".toList) =
      "2023-01-01 00:00:00\tx".toList ++ ['\n'] :=
  weechat_roundtrip _ _ (by decide) (by decide) (by decide)

/-! ### Claim C10: empty payloads in the classifier -/

theorem takeWhile_append_all {p : Char → Bool} {l1 : List Char} (l2 : List Char)
    (h : ∀ c ∈ l1, p c = true) :
    (l1 ++ l2).takeWhile p = l1 ++ l2.takeWhile p := by
  induction l1 with
  | nil => simp
  | cons c l ih =>
    rw [List.cons_append, List.takeWhile_cons, h c (List.mem_cons_self _ _)]
    simp only [if_true]
    rw [ih (fun d hd => h d (List.mem_cons_of_mem _ hd)), List.cons_append]

theorem dropWhile_append_all {p : Char → Bool} {l1 : List Char} (l2 : List Char)
    (h : ∀ c ∈ l1, p c = true) :
    (l1 ++ l2).dropWhile p = l2.dropWhile p := by
  induction l1 with
  | nil => simp
  | cons c l ih =>
    rw [List.cons_append, List.dropWhile_cons, h c (List.mem_cons_self _ _)]
    simp only [if_true]
    exact ih (fun d hd => h d (List.mem_cons_of_mem _ hd))

theorem alpha_ne {c d : Char} (hc : c.isAlpha = true) (hd : d.isAlpha = false) : c ≠ d :=
  fun e => by rw [e, hd] at hc; exact Bool.noConfusion hc

theorem alpha_bne {c d : Char} (hc : c.isAlpha = true) (hd : d.isAlpha = false) :
    (c != d) = true :=
  bne_iff_ne.mpr (alpha_ne hc hd)

theorem alpha_not_space {c : Char} (hc : c.isAlpha = true) : isPySpace c = false := by
  unfold isPySpace
  rw [beq_eq_false_iff_ne.mpr (alpha_ne hc (by decide)),
    beq_eq_false_iff_ne.mpr (alpha_ne hc (by decide)),
    beq_eq_false_iff_ne.mpr (alpha_ne hc (by decide)),
    beq_eq_false_iff_ne.mpr (alpha_ne hc (by decide)),
    beq_eq_false_iff_ne.mpr (alpha_ne hc (by decide)),
    beq_eq_false_iff_ne.mpr (alpha_ne hc (by decide))]
  rfl

theorem ruleNick_angle (nick : List Char) (hne : nick ≠ [])
    (ha : ∀ c ∈ nick, c.isAlpha = true) :
    ruleNick ('<' :: (nick ++ ['>', '\t'])) = some (nick, []) := by
  simp only [ruleNick]
  rw [if_true]
  have hbne : ∀ c ∈ nick, (c != '>') = true := fun c hc => alpha_bne (ha c hc) (by decide)
  rw [takeWhile_append_all _ hbne, dropWhile_append_all _ hbne]
  have ht : List.takeWhile (fun d => d != '>') (['>', '\t'] : List Char) = [] := rfl
  have hd : List.dropWhile (fun d => d != '>') (['>', '\t'] : List Char) = ['>', '\t'] := rfl
  rw [ht, hd, List.append_nil, if_neg hne]
  rfl

theorem ruleNick_ne (c : Char) (rest : List Char) (h : ¬(c = '<')) :
    ruleNick (c :: rest) = none := by
  simp only [ruleNick]
  rw [if_neg h]

theorem ruleNotice_ne (c : Char) (rest : List Char) (h : ¬(c = '-')) :
    ruleNotice (c :: rest) = none := by
  simp only [ruleNotice]
  rw [if_neg h]

theorem ruleOutgoing_ne (c : Char) (rest : List Char) (h : ¬(c = '>')) :
    ruleOutgoing (c :: rest) = none := by
  simp only [ruleOutgoing]
  rw [if_neg h]

theorem ruleLit_ne (marker text : List Char)
    (h : ¬(text.take (marker.length + 1) = marker ++ ['\t'])) :
    ruleLit marker text = none := by
  simp only [ruleLit]
  rw [if_neg h]

theorem afterArrow_no_gt {l : List Char} (h : '>' ∉ l) : afterArrow l = none := by
  unfold afterArrow
  rw [if_neg ?hcond]
  case hcond =>
    intro heq
    have h1 : '>' ∈ (l.dropWhile isPySpace).take 3 := by
      rw [heq]
      exact List.mem_cons_self _ _
    exact h ((List.dropWhile_sublist _).subset (List.take_subset _ _ h1))

theorem nickSearch_no_gt {rest : List Char} (h : '>' ∉ rest.drop 1) :
    ∀ k, nickSearch rest k = none := by
  intro k
  induction k with
  | zero => rfl
  | succ k ih =>
    have hk : '>' ∉ rest.drop (k + 1) := by
      intro hm
      apply h
      have hdd : (rest.drop 1).drop k = rest.drop (k + 1) := by
        rw [List.drop_drop, Nat.add_comm]
      exact List.drop_subset _ _ (hdd ▸ hm)
    simp only [nickSearch, afterArrow_no_gt hk]
    exact ih

theorem ruleQuery_no_gt {text : List Char} (h : '>' ∉ text) : ruleQuery text = none := by
  unfold ruleQuery
  apply nickSearch_no_gt
  intro hm
  exact h ((List.dropWhile_sublist _).subset (List.drop_subset _ _ hm))

theorem afterArrow_head_alpha {c : Char} (rest : List Char) (hc : c.isAlpha = true) :
    afterArrow (c :: rest) = none := by
  unfold afterArrow
  rw [List.dropWhile_cons, alpha_not_space hc, if_neg Bool.false_ne_true]
  rw [if_neg ?hcond]
  case hcond =>
    intro heq
    have hh : c = '>' := by
      have h0 := congrArg List.head? heq
      simpa using h0
    exact alpha_ne hc (by decide) hh

theorem nickSearch_succ_none {rest : List Char} {k : Nat}
    (h : afterArrow (rest.drop (k + 1)) = none) :
    nickSearch rest (k + 1) = nickSearch rest k := by
  simp only [nickSearch, h]

theorem nickSearch_succ_some_empty {rest : List Char} {k : Nat}
    (h : afterArrow (rest.drop (k + 1)) = some []) :
    nickSearch rest (k + 1) = nickSearch rest k := by
  simp only [nickSearch, h]
  rfl

theorem nickSearch_query_tail (nick : List Char) (ha : ∀ c ∈ nick, c.isAlpha = true) :
    ∀ k, k ≤ nick.length → nickSearch (nick ++ [' ', '>', '>', '\t']) k = none := by
  intro k
  induction k with
  | zero => intro _; rfl
  | succ k ih =>
    intro hk
    rcases Nat.lt_or_ge (k + 1) nick.length with hlt | hge
    · have hdrop : (nick ++ [' ', '>', '>', '\t']).drop (k + 1) =
          nick[k + 1] :: (nick.drop (k + 2) ++ [' ', '>', '>', '\t']) := by
        rw [List.drop_append_of_le_length (le_of_lt hlt), List.drop_eq_getElem_cons hlt,
          List.cons_append]
      have hnone : afterArrow ((nick ++ [' ', '>', '>', '\t']).drop (k + 1)) = none := by
        rw [hdrop]
        exact afterArrow_head_alpha _ (ha _ (List.getElem_mem hlt))
      rw [nickSearch_succ_none hnone]
      exact ih (le_of_lt (Nat.lt_of_succ_lt_succ (Nat.lt_succ_of_lt hlt)))
    · have hk1 : k + 1 = nick.length := le_antisymm hk hge
      have hdrop : (nick ++ [' ', '>', '>', '\t']).drop (k + 1) = [' ', '>', '>', '\t'] := by
        rw [hk1, List.drop_left]
      have hsome : afterArrow ((nick ++ [' ', '>', '>', '\t']).drop (k + 1)) = some [] := by
        rw [hdrop]
        rfl
      rw [nickSearch_succ_some_empty hsome]
      exact ih (by omega)

theorem ruleQuery_query_empty (n0 : Char) (ntail : List Char)
    (ha : ∀ c ∈ n0 :: ntail, c.isAlpha = true) :
    ruleQuery ((n0 :: ntail) ++ [' ', '>', '>', '\t']) = none := by
  have hn0 : isPySpace n0 = false := alpha_not_space (ha n0 (List.mem_cons_self _ _))
  have hrest : ((n0 :: ntail) ++ [' ', '>', '>', '\t']).dropWhile isPySpace =
      (n0 :: ntail) ++ [' ', '>', '>', '\t'] := by
    rw [List.cons_append, List.dropWhile_cons, hn0, if_neg Bool.false_ne_true]
  have hnspace : ∀ c ∈ n0 :: ntail, (!isPySpace c) = true := fun c hc => by
    rw [alpha_not_space (ha c hc)]
    rfl
  have htw : List.takeWhile (fun c => !isPySpace c) ([' ', '>', '>', '\t'] : List Char) = [] := rfl
  have htake : ((n0 :: ntail) ++ [' ', '>', '>', '\t']).takeWhile (fun c => !isPySpace c) =
      n0 :: ntail := by
    rw [takeWhile_append_all _ hnspace, htw, List.append_nil]
  simp only [ruleQuery, hrest, htake]
  exact nickSearch_query_tail _ ha _ le_rfl

theorem ruleLit_head_ne (m0 : Char) (mrest : List Char) (c : Char) (rest : List Char)
    (h : ¬(c = m0)) : ruleLit (m0 :: mrest) (c :: rest) = none := by
  apply ruleLit_ne
  intro heq
  rw [List.take_succ_cons, List.cons_append] at heq
  injection heq with h1 _
  exact h h1

theorem ruleLit_second_ne (m0 m1 : Char) (mrest : List Char) (c0 c1 : Char) (rest : List Char)
    (h : ¬(c1 = m1)) : ruleLit (m0 :: m1 :: mrest) (c0 :: c1 :: rest) = none := by
  apply ruleLit_ne
  intro heq
  rw [List.take_succ_cons, List.length_cons, List.take_succ_cons, List.cons_append,
    List.cons_append] at heq
  injection heq with _ heq1
  injection heq1 with h1 _
  exact h h1

theorem ruleNotice_empty (n0 : Char) (ntail : List Char)
    (ha : ∀ c ∈ n0 :: ntail, c.isAlpha = true) :
    ruleNotice ('-' :: ((n0 :: ntail) ++ ['-', '\t'])) = none := by
  simp only [ruleNotice]
  rw [if_true]
  have hbne : ∀ c ∈ n0 :: ntail, (c != '-') = true := fun c hc => alpha_bne (ha c hc) (by decide)
  rw [takeWhile_append_all _ hbne, dropWhile_append_all _ hbne]
  have ht : List.takeWhile (fun d => d != '-') (['-', '\t'] : List Char) = [] := rfl
  have hd : List.dropWhile (fun d => d != '-') (['-', '\t'] : List Char) = ['-', '\t'] := rfl
  rw [ht, hd, List.append_nil, if_neg (List.cons_ne_nil n0 ntail)]
  rfl

theorem ruleOutgoing_empty (n0 : Char) (ntail : List Char)
    (ha : ∀ c ∈ n0 :: ntail, c.isAlpha = true) :
    ruleOutgoing ('>' :: ((n0 :: ntail) ++ ['<', '\t'])) = none := by
  simp only [ruleOutgoing]
  rw [if_true]
  have hbne : ∀ c ∈ n0 :: ntail, (c != '<') = true := fun c hc => alpha_bne (ha c hc) (by decide)
  rw [takeWhile_append_all _ hbne, dropWhile_append_all _ hbne]
  have ht : List.takeWhile (fun d => d != '<') (['<', '\t'] : List Char) = [] := rfl
  have hd : List.dropWhile (fun d => d != '<') (['<', '\t'] : List Char) = ['<', '\t'] := rfl
  rw [ht, hd, List.append_nil, if_neg (List.cons_ne_nil n0 ntail)]
  rfl

theorem ruleQuery_outgoing (n0 : Char) (ntail : List Char)
    (ha : ∀ c ∈ n0 :: ntail, c.isAlpha = true) :
    ruleQuery ('>' :: n0 :: (ntail ++ ['<', '\t'])) = none := by
  simp only [ruleQuery]
  have hgt : isPySpace '>' = false := by decide
  rw [List.dropWhile_cons, hgt, if_neg Bool.false_ne_true]
  apply nickSearch_no_gt
  have hd1 : ('>' :: n0 :: (ntail ++ ['<', '\t'])).drop 1 = n0 :: (ntail ++ ['<', '\t']) := rfl
  rw [hd1]
  intro hm
  rcases List.mem_cons.mp hm with h2 | hm2
  · exact alpha_ne (ha n0 (List.mem_cons_self _ _)) (by decide) h2.symm
  rcases List.mem_append.mp hm2 with h3 | h4
  · exact absurd (ha '>' (List.mem_cons_of_mem _ h3)) (by decide)
  · exact absurd h4 (by decide)

theorem ruleQuery_notice (n0 : Char) (ntail : List Char)
    (ha : ∀ c ∈ n0 :: ntail, c.isAlpha = true) :
    ruleQuery ('-' :: n0 :: (ntail ++ ['-', '\t'])) = none := by
  apply ruleQuery_no_gt
  intro hm
  rcases List.mem_cons.mp hm with h1 | hm1
  · exact absurd h1 (by decide)
  rcases List.mem_cons.mp hm1 with h2 | hm2
  · exact alpha_ne (ha n0 (List.mem_cons_self _ _)) (by decide) h2.symm
  rcases List.mem_append.mp hm2 with h3 | h4
  · exact absurd (ha '>' (List.mem_cons_of_mem _ h3)) (by decide)
  · exact absurd h4 (by decide)

theorem classify_angle_empty (nick : List Char) (hne : nick ≠ [])
    (ha : ∀ c ∈ nick, c.isAlpha = true) :
    classify_message ('<' :: (nick ++ ['>', '\t'])) = ('<' :: (nick ++ ['>']), []) := by
  simp only [classify_message, ruleNick_angle nick hne ha]

theorem classify_notice_empty (n0 : Char) (ntail : List Char)
    (ha : ∀ c ∈ n0 :: ntail, c.isAlpha = true) :
    classify_message ('-' :: ((n0 :: ntail) ++ ['-', '\t'])) =
      (['-', '-'], '-' :: ((n0 :: ntail) ++ ['-', '\t'])) := by
  rw [List.cons_append]
  have hn0 := ha n0 (List.mem_cons_self _ _)
  have hr1 := ruleNick_ne '-' (n0 :: (ntail ++ ['-', '\t'])) (by decide)
  have hr2 := ruleLit_second_ne '-' '-' ['>'] '-' n0 (ntail ++ ['-', '\t'])
    (alpha_ne hn0 (by decide))
  have hr3 := ruleLit_head_ne '<' ['-', '-'] '-' (n0 :: (ntail ++ ['-', '\t'])) (by decide)
  have hr4 := ruleLit_second_ne '-' '-' ['-'] '-' n0 (ntail ++ ['-', '\t'])
    (alpha_ne hn0 (by decide))
  have hr5 := ruleLit_head_ne '*' [] '-' (n0 :: (ntail ++ ['-', '\t'])) (by decide)
  have hr6 : ruleNotice ('-' :: n0 :: (ntail ++ ['-', '\t'])) = none := by
    rw [← List.cons_append]
    exact ruleNotice_empty n0 ntail ha
  have hr7 := ruleLit_second_ne '-' '*' ['s', 't', 'a', 't', 'u', 's', '-'] '-' n0
    (ntail ++ ['-', '\t']) (alpha_ne hn0 (by decide))
  have hr8 := ruleOutgoing_ne '-' (n0 :: (ntail ++ ['-', '\t'])) (by decide)
  have hr9 := ruleQuery_notice n0 ntail ha
  simp only [classify_message, hr1, hr2, hr3, hr4, hr5, hr6, hr7, hr8, hr9, ite_self]

theorem classify_outgoing_empty (n0 : Char) (ntail : List Char)
    (ha : ∀ c ∈ n0 :: ntail, c.isAlpha = true) :
    classify_message ('>' :: ((n0 :: ntail) ++ ['<', '\t'])) =
      (['-', '-'], '>' :: ((n0 :: ntail) ++ ['<', '\t'])) := by
  rw [List.cons_append]
  have hr1 := ruleNick_ne '>' (n0 :: (ntail ++ ['<', '\t'])) (by decide)
  have hr2 := ruleLit_head_ne '-' ['-', '>'] '>' (n0 :: (ntail ++ ['<', '\t'])) (by decide)
  have hr3 := ruleLit_head_ne '<' ['-', '-'] '>' (n0 :: (ntail ++ ['<', '\t'])) (by decide)
  have hr4 := ruleLit_head_ne '-' ['-', '-'] '>' (n0 :: (ntail ++ ['<', '\t'])) (by decide)
  have hr5 := ruleLit_head_ne '*' [] '>' (n0 :: (ntail ++ ['<', '\t'])) (by decide)
  have hr6 := ruleNotice_ne '>' (n0 :: (ntail ++ ['<', '\t'])) (by decide)
  have hr7 := ruleLit_head_ne '-' ['*', 's', 't', 'a', 't', 'u', 's', '-'] '>'
    (n0 :: (ntail ++ ['<', '\t'])) (by decide)
  have hr8 : ruleOutgoing ('>' :: n0 :: (ntail ++ ['<', '\t'])) = none := by
    rw [← List.cons_append]
    exact ruleOutgoing_empty n0 ntail ha
  have hr9 := ruleQuery_outgoing n0 ntail ha
  simp only [classify_message, hr1, hr2, hr3, hr4, hr5, hr6, hr7, hr8, hr9, ite_self]

theorem classify_query_empty (n0 : Char) (ntail : List Char)
    (ha : ∀ c ∈ n0 :: ntail, c.isAlpha = true) :
    classify_message ((n0 :: ntail) ++ [' ', '>', '>', '\t']) =
      (['-', '-'], (n0 :: ntail) ++ [' ', '>', '>', '\t']) := by
  rw [List.cons_append]
  have hn0 := ha n0 (List.mem_cons_self _ _)
  have hr1 := ruleNick_ne n0 (ntail ++ [' ', '>', '>', '\t']) (alpha_ne hn0 (by decide))
  have hr2 := ruleLit_head_ne '-' ['-', '>'] n0 (ntail ++ [' ', '>', '>', '\t'])
    (alpha_ne hn0 (by decide))
  have hr3 := ruleLit_head_ne '<' ['-', '-'] n0 (ntail ++ [' ', '>', '>', '\t'])
    (alpha_ne hn0 (by decide))
  have hr4 := ruleLit_head_ne '-' ['-', '-'] n0 (ntail ++ [' ', '>', '>', '\t'])
    (alpha_ne hn0 (by decide))
  have hr5 := ruleLit_head_ne '*' [] n0 (ntail ++ [' ', '>', '>', '\t'])
    (alpha_ne hn0 (by decide))
  have hr6 := ruleNotice_ne n0 (ntail ++ [' ', '>', '>', '\t']) (alpha_ne hn0 (by decide))
  have hr7 := ruleLit_head_ne '-' ['*', 's', 't', 'a', 't', 'u', 's', '-'] n0
    (ntail ++ [' ', '>', '>', '\t']) (alpha_ne hn0 (by decide))
  have hr8 := ruleOutgoing_ne n0 (ntail ++ [' ', '>', '>', '\t']) (alpha_ne hn0 (by decide))
  have hr9 : ruleQuery (n0 :: (ntail ++ [' ', '>', '>', '\t'])) = none := by
    rw [← List.cons_append]
    exact ruleQuery_query_empty n0 ntail ha
  simp only [classify_message, hr1, hr2, hr3, hr4, hr5, hr6, hr7, hr8, hr9, ite_self]

/-- C10: the `<speaker>` rule accepts an empty payload — `<nick>` plus a tab
and nothing after yields prefix `<nick>` and empty message — while each
other tab-delimited rule (`-->`, `<--`, `---`, `*`, `-nick-`, `-*status-`,
`>nick<`, `nick >>`) requires a nonempty payload, so its marker followed by
a tab and nothing else falls to the generic fallback, keeping the marker
and the tab verbatim in the message with prefix `--` (nicks quantified over
nonempty alphabetic names). -/
theorem classify_empty_payload (nick : List Char) (hne : nick ≠ [])
    (ha : ∀ c ∈ nick, c.isAlpha = true) :
    classify_message ('<' :: (nick ++ ['>', '\t'])) = ('<' :: (nick ++ ['>']), []) ∧
    classify_message ("-->\t".toList) = ("--".toList, "-->\t".toList) ∧
    classify_message ("<--\t".toList) = ("--".toList, "<--\t".toList) ∧
    classify_message ("---\t".toList) = ("--".toList, "---\t".toList) ∧
    classify_message ("*\t".toList) = ("--".toList, "*\t".toList) ∧
    classify_message ("-*status-\t".toList) = ("--".toList, "-*status-\t".toList) ∧
    classify_message ('-' :: (nick ++ ['-', '\t'])) = ("--".toList, '-' :: (nick ++ ['-', '\t'])) ∧
    classify_message ('>' :: (nick ++ ['<', '\t'])) = ("--".toList, '>' :: (nick ++ ['<', '\t'])) ∧
    classify_message (nick ++ [' ', '>', '>', '\t']) =
      ("--".toList, nick ++ [' ', '>', '>', '\t']) := by
  cases nick with
  | nil => exact absurd rfl hne
  | cons n0 ntail =>
    refine ⟨classify_angle_empty _ hne ha, by decide, by decide, by decide, by decide, by decide,
      ?_, ?_, ?_⟩
    · exact classify_notice_empty n0 ntail ha
    · exact classify_outgoing_empty n0 ntail ha
    · exact classify_query_empty n0 ntail ha

theorem classify_empty_payload_witness :
    classify_message ('<' :: (['n'] ++ ['>', '\t'])) = ('<' :: (['n'] ++ ['>']), []) ∧
    classify_message ("-->\t".toList) = ("--".toList, "-->\t".toList) ∧
    classify_message ("<--\t".toList) = ("--".toList, "<--\t".toList) ∧
    classify_message ("---\t".toList) = ("--".toList, "---\t".toList) ∧
    classify_message ("*\t".toList) = ("--".toList, "*\t".toList) ∧
    classify_message ("-*status-\t".toList) = ("--".toList, "-*status-\t".toList) ∧
    classify_message ('-' :: (['n'] ++ ['-', '\t'])) = ("--".toList, '-' :: (['n'] ++ ['-', '\t'])) ∧
    classify_message ('>' :: (['n'] ++ ['<', '\t'])) = ("--".toList, '>' :: (['n'] ++ ['<', '\t'])) ∧
    classify_message (['n'] ++ [' ', '>', '>', '\t']) =
      ("--".toList, ['n'] ++ [' ', '>', '>', '\t']) :=
  classify_empty_payload ['n'] (by decide) (by decide)
